import Mathlib

/-!
Shallow embedding of the GlobalSight client's streaming/parsing/chat core.

Strings are modelled as `List Char` (JavaScript strings are sequences of
code points; every operation the embedded code performs — split, startsWith,
includes, trim, regex-anchored strips — is reproduced on lists).  The
embedded functions follow the TypeScript source:
  - `sections`            : the useMemo markdown parser in AnalysisDisplay.tsx
  - `extractErrorMessage` : geminiService.ts
  - `analyzeParts`, `analyzeUpdates` : analyzeContentStream in geminiService.ts
  - `continueContents`, `continueUpdates` : continueConversationStream
  - `contextPartsOf`, `sendFollowUpRun` : handleAnalyze / handleSendMessage in App
-/

namespace GlobalSight

/-- JavaScript `\s` character class (the set trimmed by `String.prototype.trim`
and matched by `\s` in the title-cleaning regexes). -/
def isJsWs (c : Char) : Bool :=
  c = ' ' || c = '\t' || c = '\n' || c = '\r' || c = '\x0b' || c = '\x0c' ||
  c.toNat = 0xa0 || c.toNat = 0x1680 ||
  (0x2000 ≤ c.toNat && c.toNat ≤ 0x200a) ||
  c.toNat = 0x2028 || c.toNat = 0x2029 || c.toNat = 0x202f ||
  c.toNat = 0x205f || c.toNat = 0x3000 || c.toNat = 0xfeff

/-- JavaScript `\w` character class: `[A-Za-z0-9_]`. -/
def isWordChar (c : Char) : Bool :=
  ('a' ≤ c && c ≤ 'z') || ('A' ≤ c && c ≤ 'Z') || ('0' ≤ c && c ≤ '9') || c = '_'

/-- JavaScript `String.prototype.trim`. -/
def trimJs (l : List Char) : List Char :=
  ((l.dropWhile isJsWs).reverse.dropWhile isJsWs).reverse

/-- `startsWithL pat l` is JavaScript `l.startsWith(pat)`. -/
def startsWithL : List Char → List Char → Bool
  | [], _ => true
  | _ :: _, [] => false
  | p :: ps, c :: cs => p = c && startsWithL ps cs

/-- `includesSub hay pat` is JavaScript `hay.includes(pat)`. -/
def includesSub : List Char → List Char → Bool
  | [], pat => startsWithL pat []
  | c :: t, pat => startsWithL pat (c :: t) || includesSub t pat

/-- JavaScript `text.split('\n')` (an empty string splits to one empty piece). -/
def splitLines : List Char → List (List Char)
  | [] => [[]]
  | c :: rest =>
    let r := splitLines rest
    if c = '\n' then [] :: r else (c :: r.headI) :: r.tail

/-- JavaScript `pieces.join('\n')`. -/
def joinNl (pieces : List (List Char)) : List Char :=
  List.intercalate ['\n'] pieces

/-- A parsed report section (ParsedSection in types.ts; `type` and `theme`
are the raw strings the component stores). -/
structure ParsedSection where
  title : List Char
  icon : List Char
  content : List Char
  type : List Char
  theme : List Char
deriving DecidableEq

/-- The fixed `sectionConfig` table of AnalysisDisplay.tsx, in declaration
order: key, icon, type, theme. -/
def sectionConfig : List (List Char × List Char × List Char × List Char) :=
  [ ("GlobalSight Analysis".toList, "fa-globe".toList, "header".toList, "neutral".toList),
    ("Problem Detected".toList, "fa-triangle-exclamation".toList, "list".toList, "danger".toList),
    ("Root Cause".toList, "fa-dna".toList, "text".toList, "info".toList),
    ("Predicted Impact".toList, "fa-chart-line".toList, "impact".toList, "warning".toList),
    ("Actionable Solutions".toList, "fa-leaf".toList, "list".toList, "success".toList),
    ("Simulation Model".toList, "fa-flask".toList, "text".toList, "life".toList),
    ("Auto-Generated Code".toList, "fa-code".toList, "code".toList, "neutral".toList),
    ("Summary Snapshot".toList, "fa-clipboard-check".toList, "table".toList, "success".toList) ]

/-- Title cleanup performed in `flushSection`:
`currentTitle.replace(/^[#\s]+/, '').trim()` then `replace(/^[^\w\s]+\s*/, '')`. -/
def cleanTitle (t : List Char) : List Char :=
  let s := trimJs (t.dropWhile (fun c => c = '#' || isJsWs c))
  match s with
  | [] => []
  | c :: _ =>
    if !isWordChar c && !isJsWs c then
      (s.dropWhile (fun d => !isWordChar d && !isJsWs d)).dropWhile isJsWs
    else s

/-- Lookup of the cleaned title in `sectionConfig`
(`Object.keys(sectionConfig).find(k => cleanTitle.includes(k))`), with the
default `{icon: fa-circle-info, type: text, theme: neutral}` config. -/
def findConfig (clean : List Char) : List Char × List Char × List Char :=
  match sectionConfig.find? (fun e => includesSub clean e.1) with
  | some e => e.2
  | none => ("fa-circle-info".toList, "text".toList, "neutral".toList)

/-- `flushSection` of the markdown parser: pushes a section only when a title
line has been seen (`if (currentTitle)`). -/
def flushSection (title : List Char) (content : List (List Char)) : List ParsedSection :=
  if title = [] then []
  else
    let clean := cleanTitle title
    let cfg := findConfig clean
    [⟨clean, cfg.1, trimJs (joinNl content), cfg.2.1, cfg.2.2⟩]

/-- `line.startsWith('## ') || line.startsWith('# ')`. -/
def isHeading (l : List Char) : Bool :=
  startsWithL "## ".toList l || startsWithL "# ".toList l

/-- The line loop of the parser: heading lines flush the open section and
open a new one; other lines accumulate into the current content buffer;
the trailing open section is flushed at end of input. -/
def parseLoop : List (List Char) → List Char → List (List Char) → List ParsedSection
  | [], title, content => flushSection title content
  | l :: ls, title, content =>
    if isHeading l then flushSection title content ++ parseLoop ls l []
    else parseLoop ls title (content ++ [l])

/-- The `sections` useMemo of AnalysisDisplay.tsx: `if (!rawMarkdown) return []`,
then split into lines and run the loop with no open title. -/
def sections (raw : List Char) : List ParsedSection :=
  if raw = [] then [] else parseLoop (splitLines raw) [] []

/-! ## Stream transport (geminiService.ts) -/

/-- A web source citation (`{web?: {uri, title}}` payload in types.ts). -/
structure WebSource where
  uri : List Char
  title : List Char
deriving DecidableEq

/-- One element of `groundingMetadata.groundingChunks`; `web` may be absent. -/
structure GroundingChunk where
  web : Option WebSource
deriving DecidableEq

/-- Grounding metadata carried by one provider chunk
(`chunk.candidates?.[0]?.groundingMetadata`); both fields may be absent. -/
structure ChunkMeta where
  groundingChunks : Option (List GroundingChunk)
  webSearchQueries : Option (List (List Char))
deriving DecidableEq

/-- One provider stream chunk: an optional text delta and optional grounding
metadata (the `candidates?.[0]?` access is collapsed into the option). -/
structure StreamChunk where
  text : Option (List Char)
  meta : Option ChunkMeta
deriving DecidableEq

/-- The mutable `accumulatedGrounding` object of `analyzeContentStream`. -/
structure Grounding where
  groundingChunks : List GroundingChunk
  webSearchQueries : Option (List (List Char))
deriving DecidableEq

/-- `{ groundingChunks: [] }` — the initial accumulator. -/
def emptyGrounding : Grounding := ⟨[], none⟩

/-- `const chunkText = chunk.text; if (chunkText) fullText += chunkText;`
(an absent or empty delta leaves the buffer unchanged). -/
def appendText (txt : List Char) (t : Option (List Char)) : List Char :=
  match t with
  | some s => if s = [] then txt else txt ++ s
  | none => txt

/-- Grounding accumulation per chunk: `groundingChunks.push(...)` appends,
`webSearchQueries` is overwritten when provided. -/
def applyMeta (g : Grounding) (m : Option ChunkMeta) : Grounding :=
  match m with
  | none => g
  | some md =>
    let g1 := match md.groundingChunks with
      | some cs => { g with groundingChunks := g.groundingChunks ++ cs }
      | none => g
    match md.webSearchQueries with
    | some q => { g1 with webSearchQueries := some q }
    | none => g1

/-- The `for await` loop of `analyzeContentStream`: one `onUpdate` invocation
per consumed chunk, with the buffer and accumulator at that point. -/
def analyzeLoop : List StreamChunk → List Char → Grounding → List (List Char × Grounding)
  | [], _, _ => []
  | c :: cs, txt, g =>
    let txt' := appendText txt c.text
    let g' := applyMeta g c.meta
    (txt', g') :: analyzeLoop cs txt' g'

/-- The sequence of `onUpdate` invocations of one `analyzeContentStream` call. -/
def analyzeUpdates (chunks : List StreamChunk) : List (List Char × Grounding) :=
  analyzeLoop chunks [] emptyGrounding

/-- The `for await` loop of `continueConversationStream`: text-only updates. -/
def continueLoop : List StreamChunk → List Char → List (List Char)
  | [], _ => []
  | c :: cs, txt =>
    let txt' := appendText txt c.text
    txt' :: continueLoop cs txt'

/-- The sequence of `onUpdate` invocations of one continuation call. -/
def continueUpdates (chunks : List StreamChunk) : List (List Char) :=
  continueLoop chunks []

/-! ## Grounding rendering (renderGrounding in AnalysisDisplay.tsx) -/

/-- `groundingChunks.map(chunk => chunk.web).filter(web => !!web)`. -/
def sourcesOf (g : Grounding) : List WebSource :=
  g.groundingChunks.filterMap (fun c => c.web)

/-- One `Map.set` step of `new Map(sources.map(item => [item.uri, item]))`:
an existing key keeps its position and takes the new value, a new key is
appended. -/
def mapInsert (acc : List WebSource) (s : WebSource) : List WebSource :=
  if acc.any (fun t => t.uri == s.uri) then
    acc.map (fun t => if t.uri == s.uri then s else t)
  else acc ++ [s]

/-- `Array.from(new Map(sources.map(item => [item.uri, item])).values())`. -/
def uniqueSources (ss : List WebSource) : List WebSource :=
  ss.foldl mapInsert []

/-! ## Conversation data and continuation request (continueConversationStream) -/

/-- Message roles. -/
inductive Role where
  | user
  | model
deriving DecidableEq

/-- ChatMessage of types.ts; `timestamp` (wall-clock `Date.now()`) is elided
as it never influences control flow. -/
structure ChatMessage where
  role : Role
  text : List Char
deriving DecidableEq

/-- A provider content part: `{text}` or `{inlineData: {data, mimeType}}`.
`data` is optional because `split('base64,')[1]` can be `undefined`. -/
inductive Part where
  | textP : List Char → Part
  | inlineP : Option (List Char) → List Char → Part
deriving DecidableEq

/-- A request turn: `{role, parts}`. -/
structure Turn where
  role : Role
  parts : List Part
deriving DecidableEq

/-- The `contents` array built by `continueConversationStream`: the original
context turn is pushed only when `initialContextParts` is non-empty, then
one text-only turn per history message, then the new user message. -/
def continueContents (history : List ChatMessage) (newMessage : List Char)
    (initialContextParts : List Part) : List Turn :=
  (if initialContextParts ≠ [] then [⟨Role.user, initialContextParts⟩] else [])
  ++ history.map (fun m => Turn.mk m.role [Part.textP m.text])
  ++ [⟨Role.user, [Part.textP newMessage]⟩]

/-! ## Part construction (analyzeContentStream and handleAnalyze) -/

/-- The `'base64,'` marker of the data-URL prefix. -/
def b64marker : List Char := "base64,".toList

/-- JavaScript `s.split('base64,')`. -/
def splitB64 : List Char → List (List Char)
  | [] => [[]]
  | c :: rest =>
    if startsWithL b64marker (c :: rest) then
      [] :: splitB64 ((c :: rest).drop b64marker.length)
    else
      let r := splitB64 rest
      (c :: r.headI) :: r.tail
termination_by l => l.length
decreasing_by
  · have h7 : b64marker.length = 7 := rfl
    simp only [List.length_drop, List.length_cons, h7]
    omega
  · simp

/-- `base64.includes('base64,') ? base64.split('base64,')[1] : base64`
(the cleaning applied by `analyzeContentStream`). -/
def cleanBase64 (s : List Char) : Option (List Char) :=
  if includesSub s b64marker then (splitB64 s).get? 1 else some s

/-- The default prompt pushed by `analyzeContentStream` when no part exists. -/
def defaultPrompt : List Char :=
  "Analyze the current state of the world based on available data and general knowledge.".toList

/-- One media push of `analyzeContentStream`: guarded by the truthiness of
both the payload and the mime type (`base64Image && imageMimeType`). -/
def inlinePartsOf (b64 mt : Option (List Char)) : List Part :=
  match b64, mt with
  | some d, some m => if d ≠ [] ∧ m ≠ [] then [Part.inlineP (cleanBase64 d) m] else []
  | _, _ => []

/-- The `parts` array sent by `analyzeContentStream`: image push, audio push,
then the text prompt, with the default prompt only when nothing was pushed. -/
def analyzeParts (textInput : List Char)
    (base64Image imageMimeType base64Audio audioMimeType : Option (List Char)) : List Part :=
  let media := inlinePartsOf base64Image imageMimeType ++ inlinePartsOf base64Audio audioMimeType
  if textInput ≠ [] then media ++ [Part.textP textInput]
  else if media = [] then [Part.textP defaultPrompt] else media

/-- The `{base64, mimeType}` essentials of FileData / AudioData. -/
structure MediaData where
  base64 : List Char
  mimeType : List Char
deriving DecidableEq

/-- The `contextParts` captured by `handleAnalyze` in App: unconditional
`split('base64,')[1]` (possibly `undefined`), then text, then the short
fallback prompt `"Analyze world data."`. -/
def contextPartsOf (text : List Char) (fileData audioData : Option MediaData) : List Part :=
  let ps :=
    (match fileData with
     | some f => [Part.inlineP ((splitB64 f.base64).get? 1) f.mimeType]
     | none => []) ++
    (match audioData with
     | some a => [Part.inlineP ((splitB64 a.base64).get? 1) a.mimeType]
     | none => []) ++
    (if text ≠ [] then [Part.textP text] else [])
  if ps = [] then [Part.textP "Analyze world data.".toList] else ps

/-- The parts `analyzeContentStream` receives for the same session input
(`handleAnalyze` passes `fileData?.base64`, `fileData?.mimeType`, ...). -/
def servicePartsOf (text : List Char) (fileData audioData : Option MediaData) : List Part :=
  analyzeParts text (fileData.map MediaData.base64) (fileData.map MediaData.mimeType)
    (audioData.map MediaData.base64) (audioData.map MediaData.mimeType)

/-! ## Follow-up chat (handleSendMessage in App) -/

/-- The placeholder text of the pending model reply. -/
def thinkingText : List Char := "Thinking...".toList

/-- History after the synthesized initial model turn (only when the history
is empty) and the new user turn are appended. -/
def afterUserStep (chatHistory : List ChatMessage) (resultText message : List Char) :
    List ChatMessage :=
  (if chatHistory.length = 0 then chatHistory ++ [⟨Role.model, resultText⟩] else chatHistory)
  ++ [⟨Role.user, message⟩]

/-- `setChatHistory(prev => [...prev, { role: 'model', text: 'Thinking...' }])`. -/
def placeholderStep (h : List ChatMessage) : List ChatMessage :=
  h ++ [⟨Role.model, thinkingText⟩]

/-- One streamed update: `copy[copy.length - 1] = { role: 'model', text }`. -/
def streamReplaceStep (h : List ChatMessage) (t : List Char) : List ChatMessage :=
  h.set (h.length - 1) ⟨Role.model, t⟩

/-- The chat history after one `handleSendMessage` call whose reply stream
delivered `updates` (the React functional state updates applied in dispatch
order). -/
def sendFollowUpRun (chatHistory : List ChatMessage) (resultText message : List Char)
    (updates : List (List Char)) : List ChatMessage :=
  updates.foldl streamReplaceStep (placeholderStep (afterUserStep chatHistory resultText message))

/-! ## Error-message synthesis (extractErrorMessage in geminiService.ts)

The dynamic error value is modelled by an inductive of JavaScript values:
primitives, arrays, plain objects, and `Error` instances (whose `message`
is an own string but not JSON-enumerable).  Numbers are modelled as
integers (only their stringification is ever used) and circular structures
are not representable, so `JSON.stringify` is total here. -/

/-- A JavaScript value reaching the catch handler. -/
inductive JsVal where
  | undefined
  | null
  | bool : Bool → JsVal
  | num : Int → JsVal
  | str : List Char → JsVal
  | arr : List JsVal → JsVal
  | obj : List (List Char × JsVal) → JsVal
  | errObj : List Char → JsVal

/-- Optional-chaining property access `v?.k` (primitives and `Error`
instances expose none of the accessed keys except `Error.message`). -/
def getProp : JsVal → List Char → JsVal
  | .obj fs, k =>
    match fs.find? (fun f => f.1 == k) with
    | some f => f.2
    | none => .undefined
  | .errObj m, k => if k == "message".toList then .str m else .undefined
  | _, _ => .undefined

/-- Hexadecimal digit for `\u00XX` escapes. -/
def hexDigit (n : Nat) : Char :=
  if n < 10 then Char.ofNat ('0'.toNat + n) else Char.ofNat ('a'.toNat + (n - 10))

/-- JSON string escaping of one character. -/
def escapeJsonChar (c : Char) : List Char :=
  if c = '"' then ['\\', '"']
  else if c = '\\' then ['\\', '\\']
  else if c = '\n' then ['\\', 'n']
  else if c = '\r' then ['\\', 'r']
  else if c = '\t' then ['\\', 't']
  else if c = '\x08' then ['\\', 'b']
  else if c = '\x0c' then ['\\', 'f']
  else if c.toNat < 0x20 then
    '\\' :: 'u' :: '0' :: '0' :: [hexDigit (c.toNat / 16), hexDigit (c.toNat % 16)]
  else [c]

/-- JSON string literal: quoted and escaped. -/
def quoteStr (s : List Char) : List Char :=
  '"' :: (s.map escapeJsonChar).flatten ++ ['"']

mutual

/-- `JSON.stringify` (`none` encodes JavaScript `undefined` as the result,
as happens for `JSON.stringify(undefined)`). -/
def stringifyJson : JsVal → Option (List Char)
  | .undefined => none
  | .null => some "null".toList
  | .bool true => some "true".toList
  | .bool false => some "false".toList
  | .num n => some (toString n).toList
  | .str s => some (quoteStr s)
  | .errObj _ => some ['{', '}']
  | .arr es => some ('[' :: List.intercalate [','] (stringifyElemPieces es) ++ [']'])
  | .obj fs => some ('{' :: List.intercalate [','] (stringifyFieldPieces fs) ++ ['}'])

/-- Array elements: an `undefined` element renders as `null`. -/
def stringifyElemPieces : List JsVal → List (List Char)
  | [] => []
  | e :: rest =>
    (match stringifyJson e with
     | some s => s
     | none => "null".toList) :: stringifyElemPieces rest

/-- Object entries: a property whose value stringifies to `undefined`
is skipped. -/
def stringifyFieldPieces : List (List Char × JsVal) → List (List Char)
  | [] => []
  | (k, v) :: rest =>
    match stringifyJson v with
    | some sv => (quoteStr k ++ ':' :: sv) :: stringifyFieldPieces rest
    | none => stringifyFieldPieces rest

end

/-- The `"[object Object]"` artifact the final filter scans for. -/
def objObjMarker : List Char := "[object Object]".toList

/-- Fallback when the stringified error is the empty-object marker. -/
def unknownSysErr : List Char := "An unknown system error occurred.".toList

/-- Fallback of the final filter when no status text is available. -/
def criticalMsg : List Char :=
  "Critical Error: The server returned an invalid response format.".toList

/-- `"API Error: "` template head. -/
def apiErrorHead : List Char := "API Error: ".toList

/-- A truthy-string test: the value of `x && typeof x === 'string'`. -/
def nonemptyStrOf : JsVal → Option (List Char)
  | .str s => if s ≠ [] then some s else none
  | _ => none

/-- Step 1 of `extractErrorMessage`: the if/else chain choosing `msg`
(every branch assigns, so the initial `"An unknown error occurred."` is
dead; `String(undefined)` yields `"undefined"` in the stringify branch). -/
def rawErrorMessage (error : JsVal) : List Char :=
  match nonemptyStrOf (getProp (getProp (getProp (getProp error "response".toList)
      "data".toList) "error".toList) "message".toList) with
  | some s => s
  | none =>
    match nonemptyStrOf (getProp (getProp error "error".toList) "message".toList) with
    | some s => s
    | none =>
      match nonemptyStrOf (getProp error "message".toList) with
      | some s => s
      | none =>
        match error with
        | .errObj m => m
        | .str s => s
        | _ =>
          match stringifyJson error with
          | some st => if st = ['{', '}'] then unknownSysErr else st
          | none => "undefined".toList

/-- Step 2 of `extractErrorMessage`: filter out `[object Object]` artifacts
and the bare empty-object marker. -/
def filterObjectArtifact (error : JsVal) (msg : List Char) : List Char :=
  if includesSub msg objObjMarker || msg = ['{', '}'] then
    match nonemptyStrOf (getProp error "statusText".toList) with
    | some st => apiErrorHead ++ st
    | none => criticalMsg
  else msg

/-- `extractErrorMessage` of geminiService.ts. -/
def extractErrorMessage (error : JsVal) : List Char :=
  filterObjectArtifact error (rawErrorMessage error)

/-! ## Demo inputs used by the closed witness instances. -/

/-- Two text-bearing chunks. -/
def demoChunksText : List StreamChunk :=
  [⟨some "he".toList, none⟩, ⟨some "llo".toList, none⟩]

/-- Three chunks whose grounding chunks carry uris a, b, a. -/
def demoChunksABA : List StreamChunk :=
  [ ⟨some "x".toList, some ⟨some [⟨some ⟨"a".toList, "t1".toList⟩⟩], none⟩⟩,
    ⟨none, some ⟨some [⟨some ⟨"b".toList, "t2".toList⟩⟩], none⟩⟩,
    ⟨some "y".toList, some ⟨some [⟨some ⟨"a".toList, "t3".toList⟩⟩], none⟩⟩ ]

/-! ## Helper lemmas -/

theorem startsWithL_refl : ∀ l : List Char, startsWithL l l = true := by
  intro l
  induction l with
  | nil => rfl
  | cons c t ih => simp [startsWithL, ih]

theorem includesSub_self : ∀ l : List Char, includesSub l l = true := by
  intro l
  cases l with
  | nil => rfl
  | cons c t => simp [includesSub, startsWithL_refl]

theorem head_ne_of {a b : Char} {l m : List Char} (h : a ≠ b) : a :: l ≠ b :: m := by
  intro he
  injection he with h1 _
  exact h h1

theorem filterObjectArtifact_ne (e : JsVal) (msg : List Char) :
    filterObjectArtifact e msg ≠ objObjMarker ∧ filterObjectArtifact e msg ≠ ['{', '}'] := by
  unfold filterObjectArtifact
  split
  case isTrue hcond =>
    cases hst : nonemptyStrOf (getProp e "statusText".toList) with
    | none =>
      exact ⟨by decide, by decide⟩
    | some st =>
      show apiErrorHead ++ st ≠ objObjMarker ∧ apiErrorHead ++ st ≠ ['{', '}']
      have h1 : apiErrorHead = 'A' :: "PI Error: ".toList := by decide
      have h2 : objObjMarker = '[' :: "object Object]".toList := by decide
      constructor
      · rw [h1, List.cons_append, h2]
        exact head_ne_of (by decide)
      · rw [h1, List.cons_append]
        exact head_ne_of (by decide)
  case isFalse hcond =>
    simp only [Bool.or_eq_true, decide_eq_true_eq, not_or] at hcond
    obtain ⟨h1, h2⟩ := hcond
    constructor
    · intro h
      rw [h, includesSub_self] at h1
      exact h1 rfl
    · exact h2

/-! ## Claim theorems -/

/-- C1: parsing the concatenation of the two streamed example deltas yields
exactly the two sections of the spec's scenario, in order, with the trailing
section flushed at end of input. -/
theorem sections_example_two_deltas :
    sections ("## 🔍 Problem Detected\n- pollution\n## 🧠 Root Cause\ncontamination\n".toList)
      = [⟨"Problem Detected".toList, "fa-triangle-exclamation".toList,
          "- pollution".toList, "list".toList, "danger".toList⟩,
         ⟨"Root Cause".toList, "fa-dna".toList,
          "contamination".toList, "text".toList, "info".toList⟩] := by
  decide

theorem foldl_replace_three :
    ∀ (us : List (List Char)) (a b : ChatMessage) (t : List Char),
      ∃ t', us.foldl streamReplaceStep [a, b, ⟨Role.model, t⟩] = [a, b, ⟨Role.model, t'⟩] := by
  intro us
  induction us with
  | nil => intro a b t; exact ⟨t, rfl⟩
  | cons u us ih =>
    intro a b t
    have h1 : streamReplaceStep [a, b, ⟨Role.model, t⟩] u = [a, b, ⟨Role.model, u⟩] := rfl
    rw [List.foldl_cons, h1]
    exact ih a b u

/-- C2: from an empty chat history and a completed analysis, one follow-up
send yields exactly three history entries — the synthesized initial model
turn, the user turn and one model reply turn — and every intermediate state
of the streaming exchange keeps length 3 (the last entry is replaced in
place, never appended). -/
theorem sendFollowUp_history_invariant :
    ∀ (resultText message : List Char) (updates : List (List Char)),
      ((sendFollowUpRun [] resultText message updates).map ChatMessage.role
        = [Role.model, Role.user, Role.model]) ∧
      ((sendFollowUpRun [] resultText message updates).get? 0 = some ⟨Role.model, resultText⟩) ∧
      ((sendFollowUpRun [] resultText message updates).get? 1 = some ⟨Role.user, message⟩) ∧
      (∀ us : List (List Char),
        (us.foldl streamReplaceStep (placeholderStep (afterUserStep [] resultText message))).length
          = 3) := by
  intro rt m updates
  have hbase : placeholderStep (afterUserStep [] rt m)
      = [⟨Role.model, rt⟩, ⟨Role.user, m⟩, ⟨Role.model, thinkingText⟩] := rfl
  obtain ⟨t', ht⟩ := foldl_replace_three updates ⟨Role.model, rt⟩ ⟨Role.user, m⟩ thinkingText
  have hrun : sendFollowUpRun [] rt m updates
      = [⟨Role.model, rt⟩, ⟨Role.user, m⟩, ⟨Role.model, t'⟩] := by
    unfold sendFollowUpRun
    rw [hbase]
    exact ht
  refine ⟨by rw [hrun]; rfl, by rw [hrun]; rfl, by rw [hrun]; rfl, ?_⟩
  intro us
  obtain ⟨t'', ht2⟩ := foldl_replace_three us ⟨Role.model, rt⟩ ⟨Role.user, m⟩ thinkingText
  rw [hbase, ht2]
  rfl

/-- C7: the synthesized error message is never the literal `[object Object]`
nor the literal empty-object marker, and the empty error object yields the
fixed fallback message rather than its JSON stringification. -/
theorem extractErrorMessage_no_artifact :
    (∀ e : JsVal, extractErrorMessage e ≠ objObjMarker ∧ extractErrorMessage e ≠ ['{', '}']) ∧
    extractErrorMessage (JsVal.obj []) = unknownSysErr := by
  constructor
  · intro e
    exact filterObjectArtifact_ne e (rawErrorMessage e)
  · have h : stringifyJson (JsVal.obj []) = some ['{', '}'] := by
      simp [stringifyJson, stringifyFieldPieces, List.intercalate]
    have h2 : rawErrorMessage (JsVal.obj []) = unknownSysErr := by
      unfold rawErrorMessage
      simp [getProp, nonemptyStrOf, h]
    unfold extractErrorMessage
    rw [h2]
    decide

theorem prefix_appendText (txt : List Char) (t : Option (List Char)) :
    txt <+: appendText txt t := by
  cases t with
  | none => exact List.prefix_refl _
  | some s =>
    by_cases h : s = [] <;> simp [appendText, h]

theorem grounding_prefix_applyMeta (g : Grounding) (m : Option ChunkMeta) :
    g.groundingChunks <+: (applyMeta g m).groundingChunks := by
  cases m with
  | none => exact List.prefix_refl _
  | some md =>
    cases hgc : md.groundingChunks <;> cases hq : md.webSearchQueries <;>
      simp [applyMeta, hgc, hq]

theorem analyzeLoop_get?_from_start :
    ∀ (cs : List StreamChunk) (txt : List Char) (g : Grounding) (i : Nat)
      (u : List Char × Grounding),
      (analyzeLoop cs txt g).get? i = some u →
      txt <+: u.1 ∧ g.groundingChunks <+: u.2.groundingChunks := by
  intro cs
  induction cs with
  | nil =>
    intro txt g i u h
    simp [analyzeLoop] at h
  | cons c cs ih =>
    intro txt g i u h
    cases i with
    | zero =>
      simp only [analyzeLoop, List.get?_cons_zero, Option.some.injEq] at h
      rw [← h]
      exact ⟨prefix_appendText txt c.text, grounding_prefix_applyMeta g c.meta⟩
    | succ i =>
      simp only [analyzeLoop, List.get?_cons_succ] at h
      have h2 := ih (appendText txt c.text) (applyMeta g c.meta) i u h
      exact ⟨(prefix_appendText txt c.text).trans h2.1,
             (grounding_prefix_applyMeta g c.meta).trans h2.2⟩

theorem analyzeLoop_mono :
    ∀ (cs : List StreamChunk) (txt : List Char) (g : Grounding) (i j : Nat)
      (u v : List Char × Grounding), i ≤ j →
      (analyzeLoop cs txt g).get? i = some u →
      (analyzeLoop cs txt g).get? j = some v →
      u.1 <+: v.1 ∧ u.2.groundingChunks <+: v.2.groundingChunks := by
  intro cs
  induction cs with
  | nil =>
    intro txt g i j u v hij hu hv
    simp [analyzeLoop] at hu
  | cons c cs ih =>
    intro txt g i j u v hij hu hv
    cases i with
    | zero =>
      cases j with
      | zero =>
        simp only [analyzeLoop, List.get?_cons_zero, Option.some.injEq] at hu hv
        rw [← hu, ← hv]
        exact ⟨List.prefix_refl _, List.prefix_refl _⟩
      | succ j =>
        simp only [analyzeLoop, List.get?_cons_zero, List.get?_cons_succ,
          Option.some.injEq] at hu hv
        rw [← hu]
        exact analyzeLoop_get?_from_start cs _ _ j v hv
    | succ i =>
      cases j with
      | zero => exact absurd hij (by omega)
      | succ j =>
        simp only [analyzeLoop, List.get?_cons_succ] at hu hv
        exact ih _ _ i j u v (Nat.le_of_succ_le_succ hij) hu hv

theorem analyzeLoop_length :
    ∀ (cs : List StreamChunk) (txt : List Char) (g : Grounding),
      (analyzeLoop cs txt g).length = cs.length := by
  intro cs
  induction cs with
  | nil => intro txt g; rfl
  | cons c cs ih => intro txt g; simp [analyzeLoop, ih]

/-- C5: one streaming analysis call fires `onUpdate` exactly once per
consumed provider chunk (text delta or not), and the accumulated text of an
earlier update is a prefix of the text of every later update. -/
theorem analyzeUpdates_once_per_chunk_monotone :
    (∀ chunks : List StreamChunk, (analyzeUpdates chunks).length = chunks.length) ∧
    (∀ (chunks : List StreamChunk) (i j : Nat) (u v : List Char × Grounding),
      i ≤ j → (analyzeUpdates chunks).get? i = some u →
      (analyzeUpdates chunks).get? j = some v → u.1 <+: v.1) :=
  ⟨fun chunks => analyzeLoop_length chunks [] emptyGrounding,
   fun chunks i j u v hij hu hv =>
     (analyzeLoop_mono chunks [] emptyGrounding i j u v hij hu hv).1⟩

/-- Witness for C5 at a concrete two-chunk stream. -/
theorem analyzeUpdates_once_per_chunk_monotone_witness :
    (analyzeUpdates demoChunksText).length = demoChunksText.length ∧
    "he".toList <+: "hello".toList :=
  ⟨analyzeUpdates_once_per_chunk_monotone.1 demoChunksText,
   analyzeUpdates_once_per_chunk_monotone.2 demoChunksText 0 1
     ("he".toList, emptyGrounding) ("hello".toList, emptyGrounding)
     (by decide) (by decide) (by decide)⟩

/-- C6: the grounding accumulator only ever appends chunks (the chunk list
of update `i` is a prefix of the list of update `j ≥ i`), and rendering
deduplicates by source uri with the last chunk winning: for uris a, b, a
across three updates the rendered list has exactly the two entries, the
repeated uri carrying the last chunk's payload. -/
theorem grounding_append_only_dedup :
    (∀ (chunks : List StreamChunk) (i j : Nat) (u v : List Char × Grounding),
      i ≤ j → (analyzeUpdates chunks).get? i = some u →
      (analyzeUpdates chunks).get? j = some v →
      u.2.groundingChunks <+: v.2.groundingChunks) ∧
    ((analyzeUpdates demoChunksABA).get? 2).map (fun u => uniqueSources (sourcesOf u.2))
      = some [⟨"a".toList, "t3".toList⟩, ⟨"b".toList, "t2".toList⟩] :=
  ⟨fun chunks i j u v hij hu hv =>
     (analyzeLoop_mono chunks [] emptyGrounding i j u v hij hu hv).2,
   by decide⟩

/-- Witness for C6 at the three-update a, b, a stream. -/
theorem grounding_append_only_dedup_witness :
    ([⟨some ⟨"a".toList, "t1".toList⟩⟩] : List GroundingChunk) <+:
      [⟨some ⟨"a".toList, "t1".toList⟩⟩, ⟨some ⟨"b".toList, "t2".toList⟩⟩,
       ⟨some ⟨"a".toList, "t3".toList⟩⟩] :=
  grounding_append_only_dedup.1 demoChunksABA 0 2
    ("x".toList, ⟨[⟨some ⟨"a".toList, "t1".toList⟩⟩], none⟩)
    ("xy".toList, ⟨[⟨some ⟨"a".toList, "t1".toList⟩⟩, ⟨some ⟨"b".toList, "t2".toList⟩⟩,
      ⟨some ⟨"a".toList, "t3".toList⟩⟩], none⟩)
    (by decide) (by decide) (by decide)

theorem continueLoop_text_only :
    ∀ (cs cs' : List StreamChunk) (txt : List Char),
      cs.map StreamChunk.text = cs'.map StreamChunk.text →
      continueLoop cs txt = continueLoop cs' txt := by
  intro cs
  induction cs with
  | nil =>
    intro cs' txt h
    cases cs' with
    | nil => rfl
    | cons c cs' => simp at h
  | cons c cs ih =>
    intro cs' txt h
    cases cs' with
    | nil => simp at h
    | cons c' cs'' =>
      simp only [List.map_cons, List.cons.injEq] at h
      have e1 : continueLoop (c :: cs) txt
          = appendText txt c.text :: continueLoop cs (appendText txt c.text) := rfl
      have e2 : continueLoop (c' :: cs'') txt
          = appendText txt c'.text :: continueLoop cs'' (appendText txt c'.text) := rfl
      rw [e1, e2, h.1]
      exact congrArg _ (ih cs'' (appendText txt c'.text) h.2)

/-- C3 counterexample: with an empty original-context parts list the code
omits the opening context turn, so the claimed turn list (which would start
with a user turn whose parts are exactly the empty context) is not built. -/
theorem continueContents_empty_context_cex :
    continueContents [] ['x'] []
      ≠ [⟨Role.user, []⟩, ⟨Role.user, [Part.textP ['x']]⟩] := by
  decide

/-- C3 (amended): when the original context parts are non-empty, the
continuation request is exactly the context turn, one text-only turn per
prior message preserving its role, then the new user turn; and the
continuation stream parses no grounding metadata — its updates depend only
on the chunks' text deltas. -/
theorem continueContents_shape :
    (∀ (history : List ChatMessage) (newMessage : List Char) (parts : List Part),
      parts ≠ [] →
      continueContents history newMessage parts
        = ⟨Role.user, parts⟩ ::
            (history.map (fun m => Turn.mk m.role [Part.textP m.text])
              ++ [⟨Role.user, [Part.textP newMessage]⟩])) ∧
    (∀ cs cs' : List StreamChunk,
      cs.map StreamChunk.text = cs'.map StreamChunk.text →
      continueUpdates cs = continueUpdates cs') := by
  constructor
  · intro history newMessage parts hp
    simp [continueContents, hp]
  · intro cs cs' h
    exact continueLoop_text_only cs cs' [] h

/-- Witness for C3 (amended) at a one-message history with a non-empty
context and two streams differing only in metadata. -/
theorem continueContents_shape_witness :
    (continueContents [⟨Role.user, "q".toList⟩] "next".toList [Part.textP "ctx".toList]
      = ⟨Role.user, [Part.textP "ctx".toList]⟩ ::
          (([⟨Role.user, "q".toList⟩] : List ChatMessage).map
              (fun m => Turn.mk m.role [Part.textP m.text])
            ++ [⟨Role.user, [Part.textP "next".toList]⟩])) ∧
    continueUpdates [⟨some "a".toList, some ⟨some [], none⟩⟩]
      = continueUpdates [⟨some "a".toList, none⟩] :=
  ⟨continueContents_shape.1 _ _ _ (by decide),
   continueContents_shape.2 _ _ (by decide)⟩

/-- C4 counterexample: with no input at all, the captured context holds the
short fallback prompt while the initial request holds the long default
prompt, so the two part sequences differ. -/
theorem context_request_parts_cex :
    contextPartsOf [] none none ≠ servicePartsOf [] none none := by
  decide

/-- C4 (amended): when some input is supplied and every supplied media
record has a non-empty payload containing the data-URL marker and a
non-empty mime type, the captured session context equals — part for part —
the part sequence of the initial analysis request. -/
theorem context_request_parts_eq :
    ∀ (text : List Char) (fileData audioData : Option MediaData),
      (∀ f, fileData = some f →
        f.base64 ≠ [] ∧ f.mimeType ≠ [] ∧ includesSub f.base64 b64marker = true) →
      (∀ a, audioData = some a →
        a.base64 ≠ [] ∧ a.mimeType ≠ [] ∧ includesSub a.base64 b64marker = true) →
      (text ≠ [] ∨ fileData ≠ none ∨ audioData ≠ none) →
      contextPartsOf text fileData audioData = servicePartsOf text fileData audioData := by
  intro text fd ad hf ha hne
  rcases fd with _ | f <;> rcases ad with _ | a
  · have ht : text ≠ [] := by
      rcases hne with h | h | h
      · exact h
      · exact absurd rfl h
      · exact absurd rfl h
    simp [contextPartsOf, servicePartsOf, analyzeParts, inlinePartsOf, ht]
  · obtain ⟨hb, hm, hincl⟩ := ha a rfl
    by_cases ht : text = [] <;>
      simp [contextPartsOf, servicePartsOf, analyzeParts, inlinePartsOf, cleanBase64,
        hb, hm, hincl, ht]
  · obtain ⟨hb, hm, hincl⟩ := hf f rfl
    by_cases ht : text = [] <;>
      simp [contextPartsOf, servicePartsOf, analyzeParts, inlinePartsOf, cleanBase64,
        hb, hm, hincl, ht]
  · obtain ⟨hbf, hmf, hif⟩ := hf f rfl
    obtain ⟨hba, hma, hia⟩ := ha a rfl
    by_cases ht : text = [] <;>
      simp [contextPartsOf, servicePartsOf, analyzeParts, inlinePartsOf, cleanBase64,
        hbf, hmf, hif, hba, hma, hia, ht]

/-- Witness for C4 (amended) at a concrete text-plus-image input. -/
theorem context_request_parts_eq_witness :
    contextPartsOf "check this river".toList
        (some ⟨"data:image/png;base64,AAA".toList, "image/png".toList⟩) none
      = servicePartsOf "check this river".toList
        (some ⟨"data:image/png;base64,AAA".toList, "image/png".toList⟩) none :=
  context_request_parts_eq _ _ _
    (fun f hf => by cases hf; exact ⟨by decide, by decide, by decide⟩)
    (fun a ha => nomatch ha)
    (Or.inl (by decide))

theorem startsWithL_append_self : ∀ p t : List Char, startsWithL p (p ++ t) = true := by
  intro p
  induction p with
  | nil => intro t; rfl
  | cons c p ih => intro t; simp [startsWithL, ih]

theorem includes_of_startsWith :
    ∀ hay pat : List Char, pat ≠ [] → startsWithL pat hay = true → includesSub hay pat = true := by
  intro hay pat hpat h
  cases hay with
  | nil =>
    cases pat with
    | nil => exact absurd rfl hpat
    | cons c t => simp [startsWithL] at h
  | cons c t => simp [includesSub, h]

theorem includesSub_append_marker :
    ∀ x y : List Char, includesSub (x ++ b64marker ++ y) b64marker = true := by
  intro x
  induction x with
  | nil =>
    intro y
    simp only [List.nil_append]
    exact includes_of_startsWith _ _ (by decide) (startsWithL_append_self _ _)
  | cons c x ih =>
    intro y
    have e : (c :: x) ++ b64marker ++ y = c :: (x ++ b64marker ++ y) := by simp
    rw [e, includesSub, ih]
    simp

theorem splitB64_cons_marker (s : List Char) (h : startsWithL b64marker s = true) :
    splitB64 s = [] :: splitB64 (s.drop b64marker.length) := by
  cases s with
  | nil => exact absurd h (by decide)
  | cons c rest => rw [splitB64.eq_2, if_pos h]

theorem splitB64_cons_no_marker (c : Char) (rest : List Char)
    (h : startsWithL b64marker (c :: rest) = false) :
    splitB64 (c :: rest) = (c :: (splitB64 rest).headI) :: (splitB64 rest).tail := by
  rw [splitB64.eq_2, if_neg (by simp [h])]

theorem splitB64_no_marker :
    ∀ s : List Char, includesSub s b64marker = false → splitB64 s = [s] := by
  intro s
  induction s with
  | nil => intro h; exact splitB64.eq_1
  | cons c rest ih =>
    intro h
    simp only [includesSub, Bool.or_eq_false_iff] at h
    rw [splitB64_cons_no_marker c rest h.1, ih h.2]
    rfl

theorem splitB64_strip :
    ∀ pre rest : List Char,
      (∀ k, k < pre.length →
        startsWithL b64marker ((pre ++ b64marker ++ rest).drop k) = false) →
      includesSub rest b64marker = false →
      splitB64 (pre ++ b64marker ++ rest) = [pre, rest] := by
  intro pre
  induction pre with
  | nil =>
    intro rest hk hr
    simp only [List.nil_append]
    rw [splitB64_cons_marker _ (startsWithL_append_self _ _)]
    rw [List.drop_left, splitB64_no_marker rest hr]
  | cons c pre ih =>
    intro rest hk hr
    have h0 : startsWithL b64marker (c :: (pre ++ b64marker ++ rest)) = false := by
      have h00 := hk 0 (by simp)
      simpa using h00
    have hk' : ∀ k, k < pre.length →
        startsWithL b64marker ((pre ++ b64marker ++ rest).drop k) = false := by
      intro k hkk
      have h01 := hk (k + 1) (by simp; omega)
      simpa using h01
    have hr' := ih rest hk' hr
    calc splitB64 ((c :: pre) ++ b64marker ++ rest)
        = splitB64 (c :: (pre ++ b64marker ++ rest)) := by
          simp only [List.cons_append]
      _ = (c :: (splitB64 (pre ++ b64marker ++ rest)).headI)
            :: (splitB64 (pre ++ b64marker ++ rest)).tail :=
          splitB64_cons_no_marker _ _ h0
      _ = [c :: pre, rest] := by rw [hr']; rfl

theorem inlinePartsOf_inline :
    ∀ (b m : Option (List Char)) (p : Part),
      p ∈ inlinePartsOf b m → ∃ d mm, p = Part.inlineP d mm := by
  intro b m p hp
  cases b with
  | none => simp [inlinePartsOf] at hp
  | some d =>
    cases m with
    | none => simp [inlinePartsOf] at hp
    | some mm =>
      by_cases hc : d ≠ [] ∧ mm ≠ []
      · rw [show inlinePartsOf (some d) (some mm)
            = if d ≠ [] ∧ mm ≠ [] then [Part.inlineP (cleanBase64 d) mm] else [] from rfl,
          if_pos hc] at hp
        simp at hp
        exact ⟨_, _, hp⟩
      · rw [show inlinePartsOf (some d) (some mm)
            = if d ≠ [] ∧ mm ≠ [] then [Part.inlineP (cleanBase64 d) mm] else [] from rfl,
          if_neg hc] at hp
        simp at hp

/-- C9: the encoder emits media parts (image, then audio) before the text
part; a non-empty text always lands last after any inline parts; each media
part preserves its mime type and has a data-URL prefix ending in the
`base64,` marker stripped; an empty input yields the single fixed default
prompt; and the emitted part list is never empty. -/
theorem analyzeParts_order_strip_fallback :
    (∀ (t : List Char) (bi mi ba ma : Option (List Char)),
      analyzeParts t bi mi ba ma ≠ []) ∧
    (analyzeParts [] none none none none = [Part.textP defaultPrompt]) ∧
    (∀ (t : List Char) (bi mi ba ma : Option (List Char)), t ≠ [] →
      ∃ media, analyzeParts t bi mi ba ma = media ++ [Part.textP t] ∧
        ∀ p ∈ media, ∃ d mm, p = Part.inlineP d mm) ∧
    (∀ (t di mi da ma : List Char), di ≠ [] → mi ≠ [] → da ≠ [] → ma ≠ [] →
      analyzeParts t (some di) (some mi) (some da) (some ma)
        = Part.inlineP (cleanBase64 di) mi :: Part.inlineP (cleanBase64 da) ma ::
            (if t ≠ [] then [Part.textP t] else [])) ∧
    (∀ pre rest : List Char,
      (∀ k, k < pre.length →
        startsWithL b64marker ((pre ++ b64marker ++ rest).drop k) = false) →
      includesSub rest b64marker = false →
      cleanBase64 (pre ++ b64marker ++ rest) = some rest) := by
  refine ⟨?_, by decide, ?_, ?_, ?_⟩
  · intro t bi mi ba ma
    by_cases h1 : t ≠ []
    · simp [analyzeParts, h1]
    · by_cases h2 : inlinePartsOf bi mi ++ inlinePartsOf ba ma = []
      · simp [analyzeParts, h1, h2]
      · simp [analyzeParts, h1, h2]
  · intro t bi mi ba ma ht
    refine ⟨inlinePartsOf bi mi ++ inlinePartsOf ba ma, ?_, ?_⟩
    · simp [analyzeParts, ht]
    · intro p hp
      rcases List.mem_append.mp hp with h | h
      · exact inlinePartsOf_inline _ _ _ h
      · exact inlinePartsOf_inline _ _ _ h
  · intro t di mi da ma hdi hmi hda hma
    by_cases ht : t = [] <;>
      simp [analyzeParts, inlinePartsOf, hdi, hmi, hda, hma, ht]
  · intro pre rest hk hr
    unfold cleanBase64
    rw [if_pos (by rw [includesSub_append_marker])]
    rw [splitB64_strip pre rest hk hr]
    rfl

/-- Witness for C9 at concrete inputs: a text-only call, a full
image-audio-text call, and a data-URL payload strip. -/
theorem analyzeParts_order_strip_fallback_witness :
    (∃ media, analyzeParts "check this river".toList none none none none
        = media ++ [Part.textP "check this river".toList] ∧
        ∀ p ∈ media, ∃ d mm, p = Part.inlineP d mm) ∧
    (analyzeParts "go".toList (some "d1".toList) (some "image/png".toList)
        (some "d2".toList) (some "audio/webm".toList)
      = Part.inlineP (cleanBase64 "d1".toList) "image/png".toList ::
          Part.inlineP (cleanBase64 "d2".toList) "audio/webm".toList ::
          (if ("go".toList : List Char) ≠ [] then [Part.textP "go".toList] else [])) ∧
    cleanBase64 ("data:image/png;base64,".toList ++ "AAA".toList)
      = some "AAA".toList :=
  ⟨analyzeParts_order_strip_fallback.2.2.1 _ none none none none (by decide),
   analyzeParts_order_strip_fallback.2.2.2.1 _ _ _ _ _
     (by decide) (by decide) (by decide) (by decide),
   analyzeParts_order_strip_fallback.2.2.2.2 "data:image/png;".toList "AAA".toList
     (by decide) (by decide)⟩

theorem parseLoop_skip_nonheading :
    ∀ (pre : List (List Char)), (∀ l ∈ pre, isHeading l = false) →
      ∀ (rest : List (List Char)) (c : List (List Char)),
        parseLoop (pre ++ rest) [] c = parseLoop rest [] (c ++ pre) := by
  intro pre
  induction pre with
  | nil => intro h rest c; simp
  | cons l pre ih =>
    intro h rest c
    have hl : isHeading l = false := h l (by simp)
    have e : parseLoop (l :: (pre ++ rest)) [] c = parseLoop (pre ++ rest) [] (c ++ [l]) := by
      show (if isHeading l then flushSection [] c ++ parseLoop (pre ++ rest) l []
            else parseLoop (pre ++ rest) [] (c ++ [l])) = _
      rw [if_neg (by simp [hl])]
    rw [List.cons_append, e, ih (fun x hx => h x (by simp [hx])) rest (c ++ [l])]
    simp

/-- C10: lines before the first heading are silently discarded — the parse
equals the parse starting at the first heading line — and a non-empty text
containing no heading line at all parses to the empty section sequence. -/
theorem preamble_lines_discarded :
    (∀ raw : List Char, (∀ l ∈ splitLines raw, isHeading l = false) → sections raw = []) ∧
    (∀ (raw : List Char) (pre : List (List Char)) (h : List Char) (rest : List (List Char)),
      splitLines raw = pre ++ h :: rest → (∀ l ∈ pre, isHeading l = false) →
      isHeading h = true → sections raw = parseLoop (h :: rest) [] []) := by
  constructor
  · intro raw hno
    by_cases hr : raw = []
    · simp [sections, hr]
    · rw [sections, if_neg hr]
      have h2 := parseLoop_skip_nonheading (splitLines raw) hno [] []
      rw [List.append_nil] at h2
      rw [h2]
      rfl
  · intro raw pre h rest hsp hpre hh
    have hr : raw ≠ [] := by
      intro hraw
      subst hraw
      have he : ([[]] : List (List Char)) = pre ++ h :: rest := by
        simpa [splitLines] using hsp
      cases pre with
      | nil =>
        simp only [List.nil_append, List.cons.injEq] at he
        rw [← he.1] at hh
        exact absurd hh (by decide)
      | cons p pre' =>
        have hlen := congrArg List.length he
        simp at hlen
    rw [sections, if_neg hr, hsp]
    rw [parseLoop_skip_nonheading pre hpre (h :: rest) []]
    show (if isHeading h then flushSection [] ([] ++ pre) ++ parseLoop rest h []
          else parseLoop rest [] (([] ++ pre) ++ [h])) = _
    rw [if_pos (by simp [hh])]
    show _ = (if isHeading h then flushSection [] [] ++ parseLoop rest h []
              else parseLoop rest [] ([] ++ [h]))
    rw [if_pos (by simp [hh])]
    rfl

/-- Witness for C10: a heading-free text parses to no sections, and a text
with a two-line preamble parses as if it began at its first heading. -/
theorem preamble_lines_discarded_witness :
    sections "no heading here at all".toList = [] ∧
    sections "intro\n## Alpha\nbody".toList
      = parseLoop ["## Alpha".toList, "body".toList] [] [] :=
  ⟨preamble_lines_discarded.1 _ (by decide),
   preamble_lines_discarded.2 "intro\n## Alpha\nbody".toList ["intro".toList]
     "## Alpha".toList ["body".toList] (by decide) (by decide) (by decide)⟩

theorem splitLines_ne_nil : ∀ l : List Char, splitLines l ≠ [] := by
  intro l
  cases l with
  | nil => simp [splitLines]
  | cons c rest =>
    simp only [splitLines]
    split <;> simp

theorem splitLines_append_cons :
    ∀ a b : List Char, splitLines (a ++ '\n' :: b) = splitLines a ++ splitLines b := by
  intro a
  induction a with
  | nil => intro b; simp [splitLines]
  | cons c a ih =>
    intro b
    by_cases hc : c = '\n'
    · subst hc
      simp [splitLines, ih]
    · obtain ⟨hd, tl, hst⟩ : ∃ hd tl, splitLines a = hd :: tl := by
        cases hsp : splitLines a with
        | nil => exact absurd hsp (splitLines_ne_nil a)
        | cons hd tl => exact ⟨hd, tl, rfl⟩
      simp [splitLines, hc, ih, hst]

theorem parseLoop_map_title :
    ∀ (ls : List (List Char)) (title : List Char) (content : List (List Char)),
      (parseLoop ls title content).map ParsedSection.title
        = (if title = [] then [] else [cleanTitle title])
            ++ (ls.filter isHeading).map cleanTitle := by
  intro ls
  induction ls with
  | nil =>
    intro title content
    by_cases ht : title = [] <;> simp [parseLoop, flushSection, ht]
  | cons l ls ih =>
    intro title content
    by_cases hl : isHeading l
    · have hlne : l ≠ [] := by
        intro h
        subst h
        exact absurd hl (by decide)
      by_cases ht : title = [] <;>
        simp [parseLoop, hl, flushSection, ht, ih, List.filter_cons, hlne]
    · simp [parseLoop, hl, ih, List.filter_cons]

theorem sections_map_title :
    ∀ raw : List Char,
      (sections raw).map ParsedSection.title
        = ((splitLines raw).filter isHeading).map cleanTitle := by
  intro raw
  by_cases hr : raw = []
  · subst hr
    decide
  · rw [sections, if_neg hr, parseLoop_map_title]
    simp

/-- C8 counterexample: `"## A"` is a prefix of `"## AB"`, the parse of the
prefix discovers the title `A`, yet the parse of the longer text has no
section titled `A` — a mid-line cut loses its truncated title. -/
theorem parse_title_monotone_cex :
    ("## A".toList <+: "## AB".toList) ∧
    "A".toList ∈ (sections "## A".toList).map ParsedSection.title ∧
    "A".toList ∉ (sections "## AB".toList).map ParsedSection.title := by
  decide

/-- C8 (amended): for a prefix `p` of `T` that ends at a line boundary —
`p = T`, or the character of `T` after `p` is a newline, or `p` itself ends
with a newline — every section title in the parse of `p` also appears in
the parse of `T`. -/
theorem parse_title_monotone_at_line_boundary :
    ∀ p b : List Char,
      (b = [] ∨ (∃ b', b = '\n' :: b') ∨ (∃ p', p = p' ++ ['\n'])) →
      ∀ t, t ∈ (sections p).map ParsedSection.title →
        t ∈ (sections (p ++ b)).map ParsedSection.title := by
  intro p b hb t ht
  rw [sections_map_title] at ht ⊢
  rcases hb with hb | ⟨b', hb⟩ | ⟨p', hp⟩
  · subst hb
    simpa using ht
  · subst hb
    rw [splitLines_append_cons, List.filter_append, List.map_append]
    exact List.mem_append_left _ ht
  · subst hp
    have h1 : splitLines (p' ++ ['\n']) = splitLines p' ++ [[]] := by
      have h0 := splitLines_append_cons p' []
      simpa [splitLines] using h0
    rw [h1, List.filter_append] at ht
    have hf : (([[]] : List (List Char)).filter isHeading) = [] := by decide
    rw [hf, List.append_nil] at ht
    have h2 : (p' ++ ['\n']) ++ b = p' ++ '\n' :: b := by simp
    rw [h2, splitLines_append_cons, List.filter_append, List.map_append]
    exact List.mem_append_left _ ht

/-- Witness for C8 (amended): a heading-only prefix extended at a newline
boundary keeps its discovered title. -/
theorem parse_title_monotone_witness :
    "Alpha".toList ∈
      (sections ("## Alpha".toList ++ '\n' :: "body".toList)).map ParsedSection.title :=
  parse_title_monotone_at_line_boundary "## Alpha".toList ('\n' :: "body".toList)
    (Or.inr (Or.inl ⟨"body".toList, rfl⟩)) "Alpha".toList (by decide)

end GlobalSight
